import Mathlib

/-!
Verification development for the planx-sdk-go repository.

The repository holds two generations of the SDK:
  * the legacy packages `batch`, `session`, `source`, `sink`, `processor`
    (src/unnamed/part_004, part_002, part_001, src/sdk/sdk.go), and
  * the v4 runtime `internal/flow`, `internal/session`, `internal/runtime`
    (src/unnamed/part_006, part_005, src/internal/runtime/sink_server.go).

Both are embedded below.  Go byte slices and strings become `List Nat`
(every byte < 256 where it matters, stated explicitly), machine integers
become `Nat`/`Int` with explicit `% 2^w` at each point where the Go code
truncates, and fallible operations return explicit result types.
-/

namespace PlanxSDK

/-! ## Batch codec (legacy package `batch`, src/unnamed/part_004)

`Record`, `Batch`, `PackBatch`, `UnpackBatch`, `appendString`, `readString`.
Go strings and byte slices are modelled as `List Nat`. -/

abbrev Str := List Nat

structure Record where
  metadata : List (Str × Str)
  payload  : List Nat
deriving DecidableEq

structure Batch where
  records : List Record
  context : List (Str × Str)
deriving DecidableEq

def magicNumber : Nat := 0x504C4E58

def version : Nat := 1

/-- Big-endian bytes of a 16-bit value, as written by `binary.BigEndian.AppendUint16`. -/
def be16 (v : Nat) : List Nat := [v / 256 % 256, v % 256]

/-- Big-endian bytes of a 32-bit value, as written by `binary.BigEndian.AppendUint32`. -/
def be32 (v : Nat) : List Nat :=
  [v / 16777216 % 256, v / 65536 % 256, v / 256 % 256, v % 256]

/-- `binary.BigEndian.AppendUint16(buf, uint16(v))`: the conversion to
`uint16` reduces `v` modulo 2^16. -/
def appendU16 (buf : List Nat) (v : Nat) : List Nat := buf ++ be16 (v % 65536)

/-- `binary.BigEndian.AppendUint32(buf, uint32(v))`: the conversion to
`uint32` reduces `v` modulo 2^32. -/
def appendU32 (buf : List Nat) (v : Nat) : List Nat := buf ++ be32 (v % 4294967296)

/-- `appendString` from src/unnamed/part_004: a 2-byte length prefix
(`uint16(len(s))`, i.e. the length modulo 2^16) followed by all bytes of `s`. -/
def appendString (buf : List Nat) (s : Str) : List Nat := appendU16 buf s.length ++ s

/-- The bytes `PackBatch` appends for one context/metadata entry:
key then value, each via `appendString`. -/
def packEntry (kv : Str × Str) : List Nat := appendString (appendString [] kv.1) kv.2

def packEntries (es : List (Str × Str)) : List Nat := (es.map packEntry).flatten

/-- The bytes `PackBatch` appends for one record: metadata count,
metadata entries, payload length, payload bytes. -/
def packRecord (r : Record) : List Nat :=
  appendU32 [] r.metadata.length ++ packEntries r.metadata ++
    appendU32 [] r.payload.length ++ r.payload

/-- `PackBatch` (src/unnamed/part_004 lines 148-189).  In Go it returns
`([]byte, error)` with the error always `nil`; encoding is total. -/
def packBatch (b : Batch) : List Nat :=
  appendU32 (appendU32 (appendU32 (appendU32 [] magicNumber) version)
      b.records.length) b.context.length ++
    packEntries b.context ++ (b.records.map packRecord).flatten

/-- The value of a big-endian byte sequence (`binary.BigEndian.Uint16/Uint32`). -/
def beVal (bs : List Nat) : Nat := bs.foldl (fun a b => a * 256 + b) 0

/-- Reading `n` bytes at `off`.  `none` models the slice-bounds panic Go
would raise when fewer than `n` bytes remain. -/
def sliceAt (data : List Nat) (off n : Nat) : Option (List Nat) :=
  if off + n ≤ data.length then some ((data.drop off).take n) else none

def readU16 (data : List Nat) (off : Nat) : Option Nat := (sliceAt data off 2).map beVal

def readU32 (data : List Nat) (off : Nat) : Option Nat := (sliceAt data off 4).map beVal

/-- Result of decoding: a value, a `FormatError` (an `errors.New` message in
the Go code), or `crash`, which models an out-of-bounds slice access
(a Go runtime panic).  An error case carries no batch. -/
inductive DecodeResult (α : Type) where
  | ok : α → DecodeResult α
  | formatError : String → DecodeResult α
  | crash : DecodeResult α
deriving DecidableEq

/-- `readString` (src/unnamed/part_004 lines 295-307): 2-byte length guard,
length read, string-bounds guard, then the bytes. -/
def readString (data : List Nat) (off : Nat) : DecodeResult (Str × Nat) :=
  if off + 2 > data.length then .formatError "batch: string length extends beyond data"
  else
    match readU16 data off with
    | none => .crash
    | some len =>
      if off + 2 + len > data.length then .formatError "batch: string extends beyond data"
      else
        match sliceAt data (off + 2) len with
        | none => .crash
        | some s => .ok (s, off + 2 + len)

/-- The context/metadata entry loop of `UnpackBatch`: `count` entries,
each a key and a value via `readString`; entries are returned in read
order (the order in which Go inserts them into the map). -/
def readEntries (data : List Nat) : Nat → Nat → DecodeResult (List (Str × Str) × Nat)
  | 0, off => .ok ([], off)
  | n + 1, off =>
    match readString data off with
    | .formatError e => .formatError e
    | .crash => .crash
    | .ok (k, off1) =>
      match readString data off1 with
      | .formatError e => .formatError e
      | .crash => .crash
      | .ok (v, off2) =>
        match readEntries data n off2 with
        | .ok (rest, off3) => .ok ((k, v) :: rest, off3)
        | .formatError e => .formatError e
        | .crash => .crash

/-- The record loop of `UnpackBatch`: metadata count (guarded), metadata
entries, payload length (guarded), payload bytes (guarded). -/
def readRecords (data : List Nat) : Nat → Nat → DecodeResult (List Record × Nat)
  | 0, off => .ok ([], off)
  | n + 1, off =>
    if off + 4 > data.length then .formatError "batch: unexpected end of data"
    else
      match readU32 data off with
      | none => .crash
      | some mc =>
        match readEntries data mc (off + 4) with
        | .formatError e => .formatError e
        | .crash => .crash
        | .ok (md, off1) =>
          if off1 + 4 > data.length then .formatError "batch: unexpected end of data"
          else
            match readU32 data off1 with
            | none => .crash
            | some plen =>
              if off1 + 4 + plen > data.length then
                .formatError "batch: payload extends beyond data"
              else
                match sliceAt data (off1 + 4) plen with
                | none => .crash
                | some payload =>
                  match readRecords data n (off1 + 4 + plen) with
                  | .ok (rs, off2) => .ok (⟨md, payload⟩ :: rs, off2)
                  | .formatError e => .formatError e
                  | .crash => .crash

/-- `UnpackBatch` (src/unnamed/part_004 lines 191-288). -/
def unpackBatch (data : List Nat) : DecodeResult Batch :=
  if data.length < 16 then .formatError "batch: data too short"
  else
    match readU32 data 0 with
    | none => .crash
    | some magic =>
      if magic ≠ magicNumber then .formatError "batch: invalid magic number"
      else
        match readU32 data 4 with
        | none => .crash
        | some ver =>
          if ver ≠ version then .formatError "batch: unsupported version"
          else
            match readU32 data 8 with
            | none => .crash
            | some recordCount =>
              match readU32 data 12 with
              | none => .crash
              | some contextCount =>
                match readEntries data contextCount 16 with
                | .formatError e => .formatError e
                | .crash => .crash
                | .ok (ctx, off) =>
                  match readRecords data recordCount off with
                  | .formatError e => .formatError e
                  | .crash => .crash
                  | .ok (records, _) => .ok ⟨records, ctx⟩

/-! ## Codec lemmas -/

@[simp] lemma be16_length (v : Nat) : (be16 v).length = 2 := rfl

@[simp] lemma be32_length (v : Nat) : (be32 v).length = 4 := rfl

@[simp] lemma appendString_length (buf : List Nat) (s : Str) :
    (appendString buf s).length = buf.length + 2 + s.length := by
  simp [appendString, appendU16]; omega

lemma beVal_be16 (v : Nat) (h : v < 65536) : beVal (be16 v) = v := by
  simp only [beVal, be16, List.foldl]
  omega

lemma beVal_be32 (v : Nat) (h : v < 4294967296) : beVal (be32 v) = v := by
  simp only [beVal, be32, List.foldl]
  omega

lemma sliceAt_exact (pre mid post : List Nat) (off n : Nat)
    (hoff : off = pre.length) (hn : n = mid.length) :
    sliceAt (pre ++ mid ++ post) off n = some mid := by
  subst hoff hn
  have hle : pre.length + mid.length ≤ (pre ++ mid ++ post).length := by
    simp only [List.length_append]; omega
  rw [sliceAt, if_pos hle, List.append_assoc, List.drop_left, List.take_left]

lemma readU32_exact (pre post : List Nat) (off v : Nat)
    (hoff : off = pre.length) (hv : v < 4294967296) :
    readU32 (pre ++ be32 v ++ post) off = some v := by
  rw [readU32, sliceAt_exact pre (be32 v) post off 4 hoff (by simp)]
  simp [beVal_be32 v hv]

lemma readU16_exact (pre post : List Nat) (off v : Nat)
    (hoff : off = pre.length) (hv : v < 65536) :
    readU16 (pre ++ be16 v ++ post) off = some v := by
  rw [readU16, sliceAt_exact pre (be16 v) post off 2 hoff (by simp)]
  simp [beVal_be16 v hv]

lemma readString_exact (data pre s rest : List Nat) (off : Nat)
    (hd : data = pre ++ be16 s.length ++ s ++ rest)
    (hoff : off = pre.length) (hs : s.length < 65536) :
    readString data off = .ok (s, off + 2 + s.length) := by
  have hlen : data.length = pre.length + 2 + s.length + rest.length := by
    subst hd; simp only [List.length_append, be16_length]; try omega
  have h16 : readU16 data off = some s.length := by
    have hd1 : data = pre ++ be16 s.length ++ (s ++ rest) := by
      rw [hd, List.append_assoc]
    rw [hd1]; exact readU16_exact pre (s ++ rest) off s.length hoff hs
  have hslice : sliceAt data (off + 2) s.length = some s := by
    rw [hd]
    exact sliceAt_exact (pre ++ be16 s.length) s rest (off + 2) s.length
      (by simp only [List.length_append, be16_length, hoff]) rfl
  have g1 : ¬ (off + 2 > data.length) := by omega
  have g2 : ¬ (off + 2 + s.length > data.length) := by omega
  simp [readString, h16, hslice, g1, g2]

@[simp] lemma packEntries_nil : packEntries [] = [] := rfl

lemma packEntries_cons (kv : Str × Str) (es : List (Str × Str)) :
    packEntries (kv :: es) = packEntry kv ++ packEntries es := by
  simp [packEntries]

lemma packEntry_eq (kv : Str × Str)
    (h1 : kv.1.length < 65536) (h2 : kv.2.length < 65536) :
    packEntry kv = be16 kv.1.length ++ kv.1 ++ be16 kv.2.length ++ kv.2 := by
  simp [packEntry, appendString, appendU16, Nat.mod_eq_of_lt, h1, h2]

@[simp] lemma packEntry_length (kv : Str × Str) :
    (packEntry kv).length = 4 + kv.1.length + kv.2.length := by
  simp [packEntry]; omega

lemma readEntries_exact (es : List (Str × Str)) :
    ∀ (data pre post : List Nat) (off : Nat),
    data = pre ++ packEntries es ++ post → off = pre.length →
    (∀ kv ∈ es, kv.1.length < 65536 ∧ kv.2.length < 65536) →
    readEntries data es.length off = .ok (es, off + (packEntries es).length) := by
  induction es with
  | nil =>
    intro data pre post off _ _ _
    simp [readEntries]
  | cons kv es ih =>
    intro data pre post off hdata hoff hb
    obtain ⟨h1, h2⟩ := hb kv (by simp)
    have hd1 : data = pre ++ be16 kv.1.length ++ kv.1 ++
        (be16 kv.2.length ++ kv.2 ++ packEntries es ++ post) := by
      rw [hdata, packEntries_cons, packEntry_eq kv h1 h2]
      simp [List.append_assoc]
    have hr1 := readString_exact data pre kv.1
      (be16 kv.2.length ++ kv.2 ++ packEntries es ++ post) off hd1 hoff h1
    have hd2 : data = (pre ++ be16 kv.1.length ++ kv.1) ++ be16 kv.2.length ++ kv.2 ++
        (packEntries es ++ post) := by
      rw [hd1]; simp [List.append_assoc]
    have hr2 := readString_exact data (pre ++ be16 kv.1.length ++ kv.1) kv.2
      (packEntries es ++ post) (off + 2 + kv.1.length) hd2
      (by simp only [List.length_append, be16_length, hoff]; try omega) h2
    have hd3 : data = (pre ++ be16 kv.1.length ++ kv.1 ++ be16 kv.2.length ++ kv.2) ++
        packEntries es ++ post := by
      rw [hd1]; simp [List.append_assoc]
    have hr3 := ih data (pre ++ be16 kv.1.length ++ kv.1 ++ be16 kv.2.length ++ kv.2)
      post (off + 2 + kv.1.length + (2 + kv.2.length)) hd3
      (by simp [List.length_append, hoff]; try omega)
      (fun kv' h' => hb kv' (by simp [h']))
    have hstep : off + 2 + kv.1.length + 2 + kv.2.length =
        off + 2 + kv.1.length + (2 + kv.2.length) := by omega
    simp only [List.length_cons, readEntries, hr1, hr2, hstep, hr3,
      DecodeResult.ok.injEq, Prod.mk.injEq, Prod.mk.eta, true_and]
    rw [packEntries_cons]
    simp only [List.length_append, packEntry_length]
    omega

lemma packRecord_eq (r : Record)
    (hm : r.metadata.length < 4294967296) (hp : r.payload.length < 4294967296) :
    packRecord r = be32 r.metadata.length ++ packEntries r.metadata ++
      be32 r.payload.length ++ r.payload := by
  simp [packRecord, appendU32, Nat.mod_eq_of_lt, hm, hp]

lemma readRecords_exact (rs : List Record) :
    ∀ (data pre post : List Nat) (off : Nat),
    data = pre ++ (rs.map packRecord).flatten ++ post → off = pre.length →
    (∀ r ∈ rs, r.metadata.length < 4294967296 ∧ r.payload.length < 4294967296 ∧
      ∀ kv ∈ r.metadata, kv.1.length < 65536 ∧ kv.2.length < 65536) →
    readRecords data rs.length off = .ok (rs, off + ((rs.map packRecord).flatten).length) := by
  induction rs with
  | nil =>
    intro data pre post off _ _ _
    simp [readRecords]
  | cons r rs ih =>
    intro data pre post off hdata hoff hb
    obtain ⟨hm, hp, hmd⟩ := hb r (by simp)
    have hflat : ((r :: rs).map packRecord).flatten =
        packRecord r ++ (rs.map packRecord).flatten := by simp
    have hd1 : data = pre ++ be32 r.metadata.length ++
        (packEntries r.metadata ++ be32 r.payload.length ++ r.payload ++
          ((rs.map packRecord).flatten ++ post)) := by
      rw [hdata, hflat, packRecord_eq r hm hp]
      simp [List.append_assoc]
    have hlen : data.length = off + 4 + (packEntries r.metadata).length + 4 +
        r.payload.length + ((rs.map packRecord).flatten).length + post.length := by
      rw [hd1]
      simp [List.length_append, hoff]
      omega
    have hu1 : readU32 data off = some r.metadata.length := by
      rw [hd1]
      exact readU32_exact pre _ off r.metadata.length hoff hm
    have hd2 : data = (pre ++ be32 r.metadata.length) ++ packEntries r.metadata ++
        (be32 r.payload.length ++ r.payload ++ ((rs.map packRecord).flatten ++ post)) := by
      rw [hd1]; simp [List.append_assoc]
    have hr1 := readEntries_exact r.metadata data (pre ++ be32 r.metadata.length)
      (be32 r.payload.length ++ r.payload ++ ((rs.map packRecord).flatten ++ post))
      (off + 4) hd2 (by simp [List.length_append, hoff]; try omega) hmd
    have hd3 : data = (pre ++ be32 r.metadata.length ++ packEntries r.metadata) ++
        be32 r.payload.length ++
        (r.payload ++ ((rs.map packRecord).flatten ++ post)) := by
      rw [hd1]; simp [List.append_assoc]
    have hu2 : readU32 data (off + 4 + (packEntries r.metadata).length) =
        some r.payload.length := by
      rw [hd3]
      exact readU32_exact (pre ++ be32 r.metadata.length ++ packEntries r.metadata) _
        (off + 4 + (packEntries r.metadata).length) r.payload.length
        (by simp [List.length_append, hoff]; try omega) hp
    have hd4 : data = (pre ++ be32 r.metadata.length ++ packEntries r.metadata ++
        be32 r.payload.length) ++ r.payload ++ ((rs.map packRecord).flatten ++ post) := by
      rw [hd1]; simp [List.append_assoc]
    have hsl : sliceAt data (off + 4 + (packEntries r.metadata).length + 4)
        r.payload.length = some r.payload := by
      rw [hd4]
      exact sliceAt_exact _ r.payload _ _ _
        (by simp [List.length_append, hoff]; try omega) rfl
    have hd5 : data = (pre ++ be32 r.metadata.length ++ packEntries r.metadata ++
        be32 r.payload.length ++ r.payload) ++ (rs.map packRecord).flatten ++ post := by
      rw [hd1]; simp [List.append_assoc]
    have hr2 := ih data
      (pre ++ be32 r.metadata.length ++ packEntries r.metadata ++
        be32 r.payload.length ++ r.payload) post
      (off + 4 + (packEntries r.metadata).length + 4 + r.payload.length) hd5
      (by simp [List.length_append, hoff]; try omega)
      (fun r' h' => hb r' (by simp [h']))
    have g1 : ¬ (off + 4 > data.length) := by omega
    have g2 : ¬ (off + 4 + (packEntries r.metadata).length + 4 > data.length) := by omega
    have g3 : ¬ (off + 4 + (packEntries r.metadata).length + 4 + r.payload.length >
        data.length) := by omega
    simp only [List.length_cons, readRecords, g1, g2, g3, if_neg, not_false_iff,
      hu1, hr1, hu2, hsl, hr2, ite_false, DecodeResult.ok.injEq, Prod.mk.injEq, true_and]
    rw [hflat]
    simp only [List.length_append, packRecord_eq r hm hp, be32_length]
    omega

/-- Reduction of `unpackBatch` once the fixed 16-byte header has been read. -/
lemma unpack_steps (data : List Nat) (rc cc : Nat)
    (h16 : 16 ≤ data.length)
    (hm : readU32 data 0 = some magicNumber)
    (hv : readU32 data 4 = some version)
    (hrc : readU32 data 8 = some rc)
    (hcc : readU32 data 12 = some cc) :
    unpackBatch data =
      match readEntries data cc 16 with
      | .formatError e => .formatError e
      | .crash => .crash
      | .ok (ctx, off) =>
        match readRecords data rc off with
        | .formatError e => .formatError e
        | .crash => .crash
        | .ok (records, _) => .ok ⟨records, ctx⟩ := by
  have hlt : ¬ data.length < 16 := by omega
  simp [unpackBatch, hlt, hm, hv, hrc, hcc]

/-- The header bytes written by `PackBatch`. -/
lemma packBatch_eq (b : Batch)
    (hrc : b.records.length < 4294967296) (hcc : b.context.length < 4294967296) :
    packBatch b = be32 magicNumber ++ be32 version ++ be32 b.records.length ++
      be32 b.context.length ++ packEntries b.context ++
      (b.records.map packRecord).flatten := by
  simp only [packBatch, appendU32, Nat.mod_eq_of_lt hrc, Nat.mod_eq_of_lt hcc]
  norm_num [magicNumber, version]

/-- The preconditions on a `Batch` under which the Go encoder does not
truncate any count or length field: they hold for every batch the Go type
system can actually represent except for strings of 64 KiB or more and
payloads/collections of 4 GiB or more. -/
def goodBatch (b : Batch) : Prop :=
  b.records.length < 4294967296 ∧ b.context.length < 4294967296 ∧
    (∀ kv ∈ b.context, kv.1.length < 65536 ∧ kv.2.length < 65536) ∧
    ∀ r ∈ b.records, r.metadata.length < 4294967296 ∧ r.payload.length < 4294967296 ∧
      ∀ kv ∈ r.metadata, kv.1.length < 65536 ∧ kv.2.length < 65536

instance (b : Batch) : Decidable (goodBatch b) := by
  unfold goodBatch; infer_instance

/-- Decoding an encoded frame, stated over the frame's four header chunks,
the packed context entries and the packed records. -/
lemma unpack_pack_core (ctx : List (Str × Str)) (records : List Record)
    (hcc2 : ctx.length < 4294967296) (hrc2 : records.length < 4294967296)
    (hctx : ∀ kv ∈ ctx, kv.1.length < 65536 ∧ kv.2.length < 65536)
    (hrecs : ∀ r ∈ records, r.metadata.length < 4294967296 ∧
      r.payload.length < 4294967296 ∧
      ∀ kv ∈ r.metadata, kv.1.length < 65536 ∧ kv.2.length < 65536) :
    unpackBatch (be32 magicNumber ++ be32 version ++ be32 records.length ++
      be32 ctx.length ++ packEntries ctx ++ (records.map packRecord).flatten)
      = .ok ⟨records, ctx⟩ := by
  set cB := packEntries ctx with hcB
  set rB := (records.map packRecord).flatten with hrB
  set hdr := be32 magicNumber ++ be32 version ++ be32 records.length ++
    be32 ctx.length with hhdr
  have hlenHdr : hdr.length = 16 := by
    rw [hhdr]; simp [List.length_append]
  have h16 : 16 ≤ (hdr ++ cB ++ rB).length := by
    simp [List.length_append, hlenHdr]
  have e0 : hdr ++ cB ++ rB = ([] : List Nat) ++ be32 magicNumber ++
      (be32 version ++ be32 records.length ++ be32 ctx.length ++ cB ++ rB) := by
    rw [hhdr]; simp [List.append_assoc]
  have hm : readU32 (hdr ++ cB ++ rB) 0 = some magicNumber := by
    rw [e0]; exact readU32_exact _ _ _ _ rfl (by norm_num [magicNumber])
  have e4 : hdr ++ cB ++ rB = be32 magicNumber ++ be32 version ++
      (be32 records.length ++ be32 ctx.length ++ cB ++ rB) := by
    rw [hhdr]; simp [List.append_assoc]
  have hv : readU32 (hdr ++ cB ++ rB) 4 = some version := by
    rw [e4]
    exact readU32_exact (be32 magicNumber) _ 4 version (by simp) (by norm_num [version])
  have e8 : hdr ++ cB ++ rB = (be32 magicNumber ++ be32 version) ++
      be32 records.length ++ (be32 ctx.length ++ cB ++ rB) := by
    rw [hhdr]; simp [List.append_assoc]
  have h8 : readU32 (hdr ++ cB ++ rB) 8 = some records.length := by
    rw [e8]
    exact readU32_exact (be32 magicNumber ++ be32 version) _ 8 records.length
      (by simp [List.length_append]) hrc2
  have e12 : hdr ++ cB ++ rB = (be32 magicNumber ++ be32 version ++
      be32 records.length) ++ be32 ctx.length ++ (cB ++ rB) := by
    rw [hhdr]; simp [List.append_assoc]
  have h12 : readU32 (hdr ++ cB ++ rB) 12 = some ctx.length := by
    rw [e12]
    exact readU32_exact (be32 magicNumber ++ be32 version ++ be32 records.length) _
      12 ctx.length (by simp [List.length_append]) hcc2
  have hdctx : hdr ++ cB ++ rB = hdr ++ packEntries ctx ++ rB := by rw [hcB]
  have hent := readEntries_exact ctx (hdr ++ cB ++ rB) hdr rB 16 hdctx
    hlenHdr.symm hctx
  have hdrec : hdr ++ cB ++ rB = (hdr ++ cB) ++ (records.map packRecord).flatten ++
      ([] : List Nat) := by
    rw [hrB]; simp [List.append_assoc]
  have hoffrec : 16 + (packEntries ctx).length = (hdr ++ cB).length := by
    simp [List.length_append, hlenHdr, hcB]
  have hrecords := readRecords_exact records (hdr ++ cB ++ rB) (hdr ++ cB)
    ([] : List Nat) (16 + (packEntries ctx).length) hdrec hoffrec hrecs
  rw [unpack_steps (hdr ++ cB ++ rB) records.length ctx.length h16 hm hv h8 h12]
  simp only [hent, hrecords]

/-! ## Counterexample batch: a context key of 65536 bytes -/

/-- A 64 KiB context key: `uint16(65536) = 0`, so `appendString` writes a
zero length prefix followed by all 65536 bytes. -/
def bigKey : Str := List.replicate 65536 97

/-- The first 24929 key bytes, which the decoder reads back as a value. -/
def repA : Str := List.replicate 24929 97

/-- The remaining key bytes, which the decoder never consumes. -/
def repB : Str := List.replicate 40605 97

def cexBatch : Batch := ⟨[], [(bigKey, [])]⟩

/-- What `UnpackBatch` actually produces from `PackBatch cexBatch`: the
zero length prefix yields an empty key, and the first two key bytes
(97, 97) are then read as the value length 97 * 256 + 97 = 24929. -/
def cexDecoded : Batch := ⟨[], [([], repA)]⟩

lemma bigKey_length : bigKey.length = 65536 := by
  unfold bigKey; exact List.length_replicate 65536 97

lemma repA_length : repA.length = 24929 := by
  unfold repA; exact List.length_replicate 24929 97

lemma bigKey_split : bigKey = be16 24929 ++ repA ++ repB := by
  have h1 : be16 24929 = List.replicate 2 (97 : Nat) := by decide
  unfold bigKey repA repB
  rw [h1, ← List.replicate_add, ← List.replicate_add,
    show 2 + 24929 + 40605 = 65536 by norm_num]

lemma packEntries_singleton (kv : Str × Str) : packEntries [kv] = packEntry kv := by
  simp [packEntries]

/-- Encoding the single-long-key batch, for an abstract key of 65536 bytes:
`uint16(65536) = 0`, so the key's length prefix is `be16 0`. -/
lemma cex_pack_gen (K : List Nat) (hlenK : K.length = 65536) :
    packBatch ⟨[], [(K, [])]⟩ =
    (be32 magicNumber ++ be32 version ++ be32 0 ++ be32 1) ++
      (be16 0 ++ K ++ be16 0) := by
  have hm1 : magicNumber % 4294967296 = magicNumber :=
    Nat.mod_eq_of_lt (by norm_num [magicNumber])
  have hm2 : version % 4294967296 = version :=
    Nat.mod_eq_of_lt (by norm_num [version])
  simp [packBatch, packEntries, packEntry, appendString, appendU32,
    appendU16, hlenK, hm1, hm2, List.append_assoc]

/-- Decoding the encoding of the single-long-key batch, for an abstract
key that starts with the bytes `be16 24929` (as `bigKey` does). -/
lemma cex_eval_gen (K rA rB : List Nat)
    (hsplit : K = be16 24929 ++ rA ++ rB)
    (hlenK : K.length = 65536) (hArep : rA.length = 24929) :
    unpackBatch (packBatch ⟨[], [(K, [])]⟩) = .ok ⟨[], [([], rA)]⟩ := by
  rw [cex_pack_gen K hlenK]
  set hdr := be32 magicNumber ++ be32 version ++ be32 0 ++ be32 1 with hhdr
  have hlenHdr : hdr.length = 16 := by rw [hhdr]; simp [List.length_append]
  have hKlen : (hdr ++ (be16 0 ++ K ++ be16 0)).length = 65556 := by
    simp only [List.length_append, be16_length, hlenHdr, hlenK]
  have h16 : 16 ≤ (hdr ++ (be16 0 ++ K ++ be16 0)).length := by omega
  have e0 : hdr ++ (be16 0 ++ K ++ be16 0) = ([] : List Nat) ++
      be32 magicNumber ++ (be32 version ++ be32 0 ++ be32 1 ++
        (be16 0 ++ K ++ be16 0)) := by
    rw [hhdr]; simp only [List.append_assoc, List.nil_append]
  have hm : readU32 (hdr ++ (be16 0 ++ K ++ be16 0)) 0 = some magicNumber := by
    rw [e0]; exact readU32_exact _ _ _ _ rfl (by norm_num [magicNumber])
  have e4 : hdr ++ (be16 0 ++ K ++ be16 0) = be32 magicNumber ++ be32 version ++
      (be32 0 ++ be32 1 ++ (be16 0 ++ K ++ be16 0)) := by
    rw [hhdr]; simp only [List.append_assoc]
  have hv : readU32 (hdr ++ (be16 0 ++ K ++ be16 0)) 4 = some version := by
    rw [e4]
    exact readU32_exact (be32 magicNumber) _ 4 version (by simp) (by norm_num [version])
  have e8 : hdr ++ (be16 0 ++ K ++ be16 0) = (be32 magicNumber ++ be32 version) ++
      be32 0 ++ (be32 1 ++ (be16 0 ++ K ++ be16 0)) := by
    rw [hhdr]; simp only [List.append_assoc]
  have h8 : readU32 (hdr ++ (be16 0 ++ K ++ be16 0)) 8 = some 0 := by
    rw [e8]
    exact readU32_exact (be32 magicNumber ++ be32 version) _ 8 0
      (by simp [List.length_append]) (by norm_num)
  have e12 : hdr ++ (be16 0 ++ K ++ be16 0) = (be32 magicNumber ++ be32 version ++
      be32 0) ++ be32 1 ++ (be16 0 ++ K ++ be16 0) := by
    rw [hhdr]
  have h12 : readU32 (hdr ++ (be16 0 ++ K ++ be16 0)) 12 = some 1 := by
    rw [e12]
    exact readU32_exact (be32 magicNumber ++ be32 version ++ be32 0) _ 12 1
      (by simp [List.length_append]) (by norm_num)
  have hdent : hdr ++ (be16 0 ++ K ++ be16 0) =
      hdr ++ packEntries [(([] : List Nat), rA)] ++ (rB ++ be16 0) := by
    rw [hsplit, packEntries_singleton]
    simp only [packEntry, appendString, appendU16, hArep, List.length_nil,
      Nat.zero_mod, Nat.reduceMod, List.nil_append, List.append_nil,
      List.append_assoc]
  have hent := readEntries_exact [(([] : List Nat), rA)]
    (hdr ++ (be16 0 ++ K ++ be16 0)) hdr
    (rB ++ be16 0) 16 hdent hlenHdr.symm
    (by simp [hArep])
  have hent2 : readEntries (hdr ++ (be16 0 ++ K ++ be16 0)) 1 16 =
      .ok ([(([] : List Nat), rA)], 24949) := by
    simpa only [List.length_singleton, packEntries_singleton, packEntry_length,
      List.length_nil, hArep, Nat.reduceAdd] using hent
  have hrec0 : readRecords (hdr ++ (be16 0 ++ K ++ be16 0)) 0 24949 =
      .ok ([], 24949) := by simp [readRecords]
  rw [unpack_steps (hdr ++ (be16 0 ++ K ++ be16 0)) 0 1 h16 hm hv h8 h12]
  simp only [hent2, hrec0]

/-- Decoding the encoding of `cexBatch` yields `cexDecoded`, not `cexBatch`. -/
lemma cex_eval : unpackBatch (packBatch cexBatch) = .ok cexDecoded :=
  cex_eval_gen bigKey repA repB bigKey_split bigKey_length repA_length

/-! ## Claim C1 -/

/-- C1 (amended): for every Batch whose counts and payload lengths fit in
32 bits and whose metadata/context keys and values are shorter than 65536
bytes, `UnpackBatch (PackBatch b)` returns exactly `b`: same record
sequence (length and order), identical payload bytes, and the identical
sequence of metadata and context key-value pairs.  The batch quantifies
over every map iteration order, so the result is independent of it. -/
theorem c1_round_trip (b : Batch) (h : goodBatch b) :
    unpackBatch (packBatch b) = .ok b := by
  obtain ⟨h1, h2, h3, h4⟩ := h
  rw [packBatch_eq b h1 h2]
  exact unpack_pack_core b.context b.records h2 h1 h3 h4

/-- A two-record batch with metadata `source=mysql` and context
`tenant=t1` (ASCII bytes), as in the spec's Scenario A. -/
def wBatch : Batch :=
  ⟨[⟨[([115, 111, 117, 114, 99, 101], [109, 121, 115, 113, 108])],
     [123, 34, 105, 100, 34, 58, 49, 125]⟩,
    ⟨[([115, 111, 117, 114, 99, 101], [109, 121, 115, 113, 108])],
     [123, 34, 105, 100, 34, 58, 50, 125]⟩],
   [([116, 101, 110, 97, 110, 116], [116, 49])]⟩

/-- Witness for C1: the round trip at the concrete Scenario A batch. -/
theorem c1_round_trip_witness :
    goodBatch wBatch ∧ unpackBatch (packBatch wBatch) = .ok wBatch :=
  ⟨by decide, c1_round_trip wBatch (by decide)⟩

/-- Counterexample to C1 as frozen: for the batch with the single 65536
byte context key, decoding the encoding succeeds but yields a different
context (the key comes back empty), so the unconditional round trip
fails. -/
theorem c1_counterexample :
    unpackBatch (packBatch cexBatch) = .ok cexDecoded ∧
      cexDecoded.context ≠ cexBatch.context ∧ cexDecoded ≠ cexBatch := by
  have hctx : cexDecoded.context ≠ cexBatch.context := by
    intro h
    have h3 : [(([] : List Nat), repA)] = [(bigKey, ([] : List Nat))] := h
    have h4 : (([] : List Nat), repA) = (bigKey, ([] : List Nat)) :=
      (List.cons.injEq _ _ _ _ ▸ h3 : _ ∧ _).1
    have h5 : ([] : List Nat) = bigKey := congrArg Prod.fst h4
    have h6 : (0 : Nat) = 65536 := by
      have := congrArg List.length h5
      rwa [bigKey_length] at this
    exact absurd h6 (by decide)
  exact ⟨cex_eval, hctx, fun h => hctx (congrArg Batch.context h)⟩

/-! ## Claim C3: the decoder is total -/

lemma sliceAt_some (data : List Nat) (off n : Nat) (h : off + n ≤ data.length) :
    sliceAt data off n = some ((data.drop off).take n) := by
  rw [sliceAt, if_pos h]

lemma sliceAt_bound (data : List Nat) (off n : Nat) (s : List Nat)
    (h : sliceAt data off n = some s) : off + n ≤ data.length := by
  rw [sliceAt] at h
  by_cases hle : off + n ≤ data.length
  · exact hle
  · rw [if_neg hle] at h; cases h

lemma readU16_bound (data : List Nat) (off l : Nat)
    (h : readU16 data off = some l) : off + 2 ≤ data.length := by
  rw [readU16] at h
  cases hs : sliceAt data off 2 with
  | none => rw [hs] at h; cases h
  | some s => exact sliceAt_bound data off 2 s hs

lemma readString_ne_crash (data : List Nat) (off : Nat) :
    readString data off ≠ .crash := by
  rw [readString]
  by_cases h1 : off + 2 > data.length
  · simp [h1]
  · have h2 : off + 2 ≤ data.length := by omega
    by_cases h3 : off + 2 + beVal ((data.drop off).take 2) > data.length
    · simp [h1, readU16, sliceAt_some data off 2 h2, h3]
    · have h4 : off + 2 + beVal ((data.drop off).take 2) ≤ data.length := by omega
      simp [h1, readU16, sliceAt_some data off 2 h2, h3,
        sliceAt_some data (off + 2) _ h4]

lemma readEntries_ne_crash (data : List Nat) :
    ∀ n off : Nat, readEntries data n off ≠ .crash := by
  intro n
  induction n with
  | zero => intro off; simp [readEntries]
  | succ n ih =>
    intro off
    cases hk : readString data off with
    | formatError e => simp [readEntries, hk]
    | crash => exact absurd hk (readString_ne_crash data off)
    | ok p =>
      obtain ⟨k, off1⟩ := p
      cases hv : readString data off1 with
      | formatError e => simp [readEntries, hk, hv]
      | crash => exact absurd hv (readString_ne_crash data off1)
      | ok q =>
        obtain ⟨v, off2⟩ := q
        cases hr : readEntries data n off2 with
        | formatError e => simp [readEntries, hk, hv, hr]
        | crash => exact absurd hr (ih off2)
        | ok pr => simp [readEntries, hk, hv, hr]

lemma readRecords_ne_crash (data : List Nat) :
    ∀ n off : Nat, readRecords data n off ≠ .crash := by
  intro n
  induction n with
  | zero => intro off; simp [readRecords]
  | succ n ih =>
    intro off
    by_cases g1 : off + 4 > data.length
    · simp [readRecords, g1]
    · have hg1 : off + 4 ≤ data.length := by omega
      have hu1 : readU32 data off = some (beVal ((data.drop off).take 4)) := by
        rw [readU32, sliceAt_some data off 4 hg1]; rfl
      cases he : readEntries data (beVal ((data.drop off).take 4)) (off + 4) with
      | formatError e => simp [readRecords, g1, hu1, he]
      | crash => exact absurd he (readEntries_ne_crash data _ _)
      | ok p =>
        obtain ⟨md, off1⟩ := p
        by_cases g2 : off1 + 4 > data.length
        · simp [readRecords, g1, hu1, he, g2]
        · have hg2 : off1 + 4 ≤ data.length := by omega
          have hu2 : readU32 data off1 = some (beVal ((data.drop off1).take 4)) := by
            rw [readU32, sliceAt_some data off1 4 hg2]; rfl
          by_cases g3 : off1 + 4 + beVal ((data.drop off1).take 4) > data.length
          · simp [readRecords, g1, hu1, he, g2, hu2, g3]
          · have hg3 : off1 + 4 + beVal ((data.drop off1).take 4) ≤ data.length := by
              omega
            have hsl := sliceAt_some data (off1 + 4) (beVal ((data.drop off1).take 4))
              (by omega)
            cases hr : readRecords data n (off1 + 4 + beVal ((data.drop off1).take 4)) with
            | formatError e => simp [readRecords, g1, hu1, he, g2, hu2, g3, hsl, hr]
            | crash => exact absurd hr (ih _)
            | ok pr => simp [readRecords, g1, hu1, he, g2, hu2, g3, hsl, hr]

lemma unpackBatch_ne_crash (data : List Nat) : unpackBatch data ≠ .crash := by
  by_cases h1 : data.length < 16
  · simp [unpackBatch, h1]
  · have h2 : 16 ≤ data.length := by omega
    have hu0 : readU32 data 0 = some (beVal (data.take 4)) := by
      rw [readU32, sliceAt_some data 0 4 (by omega), List.drop_zero]; rfl
    have hu4 : readU32 data 4 = some (beVal ((data.drop 4).take 4)) := by
      rw [readU32, sliceAt_some data 4 4 (by omega)]; rfl
    have hu8 : readU32 data 8 = some (beVal ((data.drop 8).take 4)) := by
      rw [readU32, sliceAt_some data 8 4 (by omega)]; rfl
    have hu12 : readU32 data 12 = some (beVal ((data.drop 12).take 4)) := by
      rw [readU32, sliceAt_some data 12 4 (by omega)]; rfl
    by_cases hmg : beVal (data.take 4) = magicNumber
    · by_cases hvr : beVal ((data.drop 4).take 4) = version
      · cases he : readEntries data (beVal ((data.drop 12).take 4)) 16 with
        | formatError e => simp [unpackBatch, h1, hu0, hu4, hu8, hu12, hmg, hvr, he]
        | crash => exact absurd he (readEntries_ne_crash data _ _)
        | ok p =>
          obtain ⟨ctx, off⟩ := p
          cases hr : readRecords data (beVal ((data.drop 8).take 4)) off with
          | formatError e =>
            simp [unpackBatch, h1, hu0, hu4, hu8, hu12, hmg, hvr, he, hr]
          | crash => exact absurd hr (readRecords_ne_crash data _ _)
          | ok q => simp [unpackBatch, h1, hu0, hu4, hu8, hu12, hmg, hvr, he, hr]
      · simp [unpackBatch, h1, hu0, hu4, hmg, hvr]
    · simp [unpackBatch, h1, hu0, hmg]

/-- C3: `UnpackBatch` is total and never performs an out-of-bounds read
(never reaches the `crash` outcome); every run returns either a decoded
batch or a format error and nothing else; inputs shorter than 16 bytes,
a wrong magic, or an unsupported version produce exactly the format
errors of the Go source; and a length-prefixed string whose length field
or bytes extend past the end of the buffer produces exactly the
`readString` format errors.  Error results carry no batch value at all
(`DecodeResult.formatError` has no `Batch` field), so no partially-valid
batch can escape. -/
theorem c3_unpack_total_safe :
    (∀ data : List Nat, unpackBatch data ≠ .crash) ∧
    (∀ data : List Nat, (∃ b, unpackBatch data = .ok b) ∨
      ∃ e, unpackBatch data = .formatError e) ∧
    (∀ data : List Nat, data.length < 16 →
      unpackBatch data = .formatError "batch: data too short") ∧
    (∀ (data : List Nat) (m : Nat), 16 ≤ data.length → readU32 data 0 = some m →
      m ≠ magicNumber → unpackBatch data = .formatError "batch: invalid magic number") ∧
    (∀ (data : List Nat) (v : Nat), 16 ≤ data.length →
      readU32 data 0 = some magicNumber → readU32 data 4 = some v → v ≠ version →
      unpackBatch data = .formatError "batch: unsupported version") ∧
    (∀ (data : List Nat) (off : Nat), data.length < off + 2 →
      readString data off = .formatError "batch: string length extends beyond data") ∧
    (∀ (data : List Nat) (off l : Nat), readU16 data off = some l →
      data.length < off + 2 + l →
      readString data off = .formatError "batch: string extends beyond data") := by
  refine ⟨unpackBatch_ne_crash, ?_, ?_, ?_, ?_, ?_, ?_⟩
  · intro data
    cases h : unpackBatch data with
    | ok b => exact Or.inl ⟨b, rfl⟩
    | formatError e => exact Or.inr ⟨e, rfl⟩
    | crash => exact absurd h (unpackBatch_ne_crash data)
  · intro data h
    simp [unpackBatch, h]
  · intro data m h16 hm hne
    have : ¬ data.length < 16 := by omega
    simp [unpackBatch, this, hm, hne]
  · intro data v h16 hm hv hne
    have : ¬ data.length < 16 := by omega
    simp [unpackBatch, this, hm, hv, hne, magicNumber]
  · intro data off h
    rw [readString, if_pos (by omega)]
  · intro data off l hl h
    have h2 : off + 2 ≤ data.length := readU16_bound data off l hl
    have g1 : ¬ (off + 2 > data.length) := by omega
    have g2 : off + 2 + l > data.length := by omega
    simp [readString, hl, g1, g2]

/-- Witness for C3: concrete rejections, including Scenario C's 16-byte
buffer whose only nonzero byte is byte 7. -/
theorem c3_unpack_total_safe_witness :
    unpackBatch [] = .formatError "batch: data too short" ∧
    unpackBatch [0, 0, 0, 0, 0, 0, 0, 1, 0, 0, 0, 0, 0, 0, 0, 0] =
      .formatError "batch: invalid magic number" ∧
    unpackBatch (be32 magicNumber ++ be32 2 ++ be32 0 ++ be32 0) =
      .formatError "batch: unsupported version" ∧
    readString [0] 0 = .formatError "batch: string length extends beyond data" ∧
    readString [0, 5] 0 = .formatError "batch: string extends beyond data" :=
  ⟨c3_unpack_total_safe.2.2.1 [] (by decide),
   c3_unpack_total_safe.2.2.2.1 [0, 0, 0, 0, 0, 0, 0, 1, 0, 0, 0, 0, 0, 0, 0, 0] 0
     (by decide) (by decide) (by decide),
   c3_unpack_total_safe.2.2.2.2.1 (be32 magicNumber ++ be32 2 ++ be32 0 ++ be32 0) 2
     (by decide) (by decide) (by decide) (by decide),
   c3_unpack_total_safe.2.2.2.2.2.1 [0] 0 (by decide),
   c3_unpack_total_safe.2.2.2.2.2.2 [0, 5] 0 5 (by decide) (by decide)⟩

/-! ## Claim C10: 16-bit truncation of string lengths -/

/-- Go's `[]byte`/`string` invariant: every byte of the batch is < 256. -/
def byteWF (b : Batch) : Prop :=
  (∀ kv ∈ b.context, (∀ x ∈ kv.1, x < 256) ∧ ∀ x ∈ kv.2, x < 256) ∧
    ∀ r ∈ b.records, (∀ x ∈ r.payload, x < 256) ∧
      ∀ kv ∈ r.metadata, (∀ x ∈ kv.1, x < 256) ∧ ∀ x ∈ kv.2, x < 256

lemma sliceAt_length_subset (data : List Nat) (off n : Nat) (s : List Nat)
    (h : sliceAt data off n = some s) : s.length = n ∧ ∀ x ∈ s, x ∈ data := by
  have hb := sliceAt_bound data off n s h
  rw [sliceAt, if_pos hb] at h
  obtain rfl : (data.drop off).take n = s := by
    cases h; rfl
  constructor
  · rw [List.length_take, List.length_drop]; omega
  · intro x hx
    exact List.drop_subset off data (List.take_subset n (data.drop off) hx)

lemma beVal2_lt (bs : List Nat) (hlen : bs.length = 2)
    (hb : ∀ x ∈ bs, x < 256) : beVal bs < 65536 := by
  cases bs with
  | nil => simp at hlen
  | cons a t =>
    cases t with
    | nil => simp at hlen
    | cons b t2 =>
      cases t2 with
      | cons c t3 => simp at hlen
      | nil =>
        have ha := hb a (by simp)
        have hb2 := hb b (by simp)
        simp only [beVal, List.foldl]
        omega

lemma readString_ok_short (data : List Nat) (off : Nat) (s : Str) (off2 : Nat)
    (hB : ∀ x ∈ data, x < 256)
    (h : readString data off = .ok (s, off2)) : s.length < 65536 := by
  by_cases g1 : off + 2 > data.length
  · rw [readString, if_pos g1] at h; cases h
  · have h2 : off + 2 ≤ data.length := by omega
    have hu : readU16 data off = some (beVal ((data.drop off).take 2)) := by
      rw [readU16, sliceAt_some data off 2 h2]; rfl
    by_cases g2 : off + 2 + beVal ((data.drop off).take 2) > data.length
    · simp [readString, g1, hu, g2] at h
    · have h3 : off + 2 + beVal ((data.drop off).take 2) ≤ data.length := by omega
      simp only [readString, g1, if_false, hu, g2,
        sliceAt_some data (off + 2) _ h3, DecodeResult.ok.injEq, Prod.mk.injEq,
        ite_false, ite_true, if_neg, not_false_iff] at h
      obtain ⟨hs, _⟩ := h
      have hl2 : ((data.drop off).take 2).length = 2 := by
        rw [List.length_take, List.length_drop]; omega
      have hmem : ∀ x ∈ (data.drop off).take 2, x < 256 := fun x hx =>
        hB x (List.drop_subset off data (List.take_subset 2 (data.drop off) hx))
      have hlt : beVal ((data.drop off).take 2) < 65536 := beVal2_lt _ hl2 hmem
      rw [← hs, List.length_take, List.length_drop]
      omega

lemma readEntries_ok_short (data : List Nat) (hB : ∀ x ∈ data, x < 256) :
    ∀ (n off : Nat) (es : List (Str × Str)) (off2 : Nat),
    readEntries data n off = .ok (es, off2) →
    ∀ kv ∈ es, kv.1.length < 65536 ∧ kv.2.length < 65536 := by
  intro n
  induction n with
  | zero =>
    intro off es off2 h kv hkv
    simp only [readEntries, DecodeResult.ok.injEq, Prod.mk.injEq] at h
    obtain ⟨rfl, _⟩ := h
    simp at hkv
  | succ n ih =>
    intro off es off2 h kv hkv
    cases hk : readString data off with
    | formatError e => simp [readEntries, hk] at h
    | crash => exact absurd hk (readString_ne_crash data off)
    | ok p =>
      obtain ⟨k, off1⟩ := p
      cases hv : readString data off1 with
      | formatError e => simp [readEntries, hk, hv] at h
      | crash => exact absurd hv (readString_ne_crash data off1)
      | ok q =>
        obtain ⟨v, offv⟩ := q
        cases hr : readEntries data n offv with
        | formatError e => simp [readEntries, hk, hv, hr] at h
        | crash => exact absurd hr (readEntries_ne_crash data n offv)
        | ok pr =>
          obtain ⟨rest, off3⟩ := pr
          simp only [readEntries, hk, hv, hr, DecodeResult.ok.injEq,
            Prod.mk.injEq] at h
          obtain ⟨rfl, _⟩ := h
          rcases List.mem_cons.mp hkv with rfl | hmem
          · exact ⟨readString_ok_short data off k off1 hB hk,
              readString_ok_short data off1 v offv hB hv⟩
          · exact ih offv rest off3 hr kv hmem

lemma readRecords_ok_short (data : List Nat) (hB : ∀ x ∈ data, x < 256) :
    ∀ (n off : Nat) (rs : List Record) (off2 : Nat),
    readRecords data n off = .ok (rs, off2) →
    ∀ r ∈ rs, ∀ kv ∈ r.metadata, kv.1.length < 65536 ∧ kv.2.length < 65536 := by
  intro n
  induction n with
  | zero =>
    intro off rs off2 h r hr
    simp only [readRecords, DecodeResult.ok.injEq, Prod.mk.injEq] at h
    obtain ⟨rfl, _⟩ := h
    simp at hr
  | succ n ih =>
    intro off rs off2 h r hr
    by_cases g1 : off + 4 > data.length
    · simp [readRecords, g1] at h
    · have hg1 : off + 4 ≤ data.length := by omega
      have hu1 : readU32 data off = some (beVal ((data.drop off).take 4)) := by
        rw [readU32, sliceAt_some data off 4 hg1]; rfl
      cases he : readEntries data (beVal ((data.drop off).take 4)) (off + 4) with
      | formatError e => simp [readRecords, g1, hu1, he] at h
      | crash => exact absurd he (readEntries_ne_crash data _ _)
      | ok p =>
        obtain ⟨md, off1⟩ := p
        by_cases g2 : off1 + 4 > data.length
        · simp [readRecords, g1, hu1, he, g2] at h
        · have hg2 : off1 + 4 ≤ data.length := by omega
          have hu2 : readU32 data off1 = some (beVal ((data.drop off1).take 4)) := by
            rw [readU32, sliceAt_some data off1 4 hg2]; rfl
          by_cases g3 : off1 + 4 + beVal ((data.drop off1).take 4) > data.length
          · simp [readRecords, g1, hu1, he, g2, hu2, g3] at h
          · have hsl := sliceAt_some data (off1 + 4) (beVal ((data.drop off1).take 4))
              (by omega)
            cases hrec : readRecords data n
                (off1 + 4 + beVal ((data.drop off1).take 4)) with
            | formatError e =>
              simp [readRecords, g1, hu1, he, g2, hu2, g3, hsl, hrec] at h
            | crash => exact absurd hrec (readRecords_ne_crash data n _)
            | ok pr =>
              obtain ⟨rs2, off3⟩ := pr
              simp only [readRecords, g1, hu1, he, g2, hu2, g3, hsl, hrec,
                if_false, ite_false, DecodeResult.ok.injEq, Prod.mk.injEq,
                if_neg, not_false_iff] at h
              obtain ⟨rfl, _⟩ := h
              rcases List.mem_cons.mp hr with rfl | hmem
              · intro kv hkv
                exact readEntries_ok_short data hB _ (off + 4) md off1 he kv hkv
              · exact ih _ rs2 off3 hrec r hmem

lemma unpack_ok_short (data : List Nat) (b2 : Batch) (hB : ∀ x ∈ data, x < 256)
    (h : unpackBatch data = .ok b2) :
    (∀ kv ∈ b2.context, kv.1.length < 65536 ∧ kv.2.length < 65536) ∧
    ∀ r ∈ b2.records, ∀ kv ∈ r.metadata, kv.1.length < 65536 ∧ kv.2.length < 65536 := by
  by_cases h1 : data.length < 16
  · simp [unpackBatch, h1] at h
  · have hu0 : readU32 data 0 = some (beVal (data.take 4)) := by
      rw [readU32, sliceAt_some data 0 4 (by omega), List.drop_zero]; rfl
    have hu4 : readU32 data 4 = some (beVal ((data.drop 4).take 4)) := by
      rw [readU32, sliceAt_some data 4 4 (by omega)]; rfl
    have hu8 : readU32 data 8 = some (beVal ((data.drop 8).take 4)) := by
      rw [readU32, sliceAt_some data 8 4 (by omega)]; rfl
    have hu12 : readU32 data 12 = some (beVal ((data.drop 12).take 4)) := by
      rw [readU32, sliceAt_some data 12 4 (by omega)]; rfl
    by_cases hmg : beVal (data.take 4) = magicNumber
    · by_cases hvr : beVal ((data.drop 4).take 4) = version
      · cases he : readEntries data (beVal ((data.drop 12).take 4)) 16 with
        | formatError e => simp [unpackBatch, h1, hu0, hu4, hu8, hu12, hmg, hvr, he] at h
        | crash => exact absurd he (readEntries_ne_crash data _ _)
        | ok p =>
          obtain ⟨ctx, off⟩ := p
          cases hr : readRecords data (beVal ((data.drop 8).take 4)) off with
          | formatError e =>
            simp [unpackBatch, h1, hu0, hu4, hu8, hu12, hmg, hvr, he, hr] at h
          | crash => exact absurd hr (readRecords_ne_crash data _ _)
          | ok q =>
            obtain ⟨records, off2⟩ := q
            simp only [unpackBatch, h1, hu0, hu4, hu8, hu12, hmg, hvr, he, hr,
              if_false, ite_false, if_neg, not_false_iff, ite_true,
              DecodeResult.ok.injEq, not_true_eq_false, ne_eq] at h
            subst h
            exact ⟨readEntries_ok_short data hB _ 16 ctx off he,
              readRecords_ok_short data hB _ off records off2 hr⟩
      · simp [unpackBatch, h1, hu0, hu4, hmg, hvr] at h
    · simp [unpackBatch, h1, hu0, hmg] at h

lemma be16_bytes (v : Nat) : ∀ x ∈ be16 v, x < 256 := by
  intro x hx
  simp only [be16, List.mem_cons, List.not_mem_nil, or_false] at hx
  rcases hx with rfl | rfl <;> exact Nat.mod_lt _ (by norm_num)

lemma be32_bytes (v : Nat) : ∀ x ∈ be32 v, x < 256 := by
  intro x hx
  simp only [be32, List.mem_cons, List.not_mem_nil, or_false] at hx
  rcases hx with rfl | rfl | rfl | rfl <;> exact Nat.mod_lt _ (by norm_num)

lemma appendString_bytes (buf : List Nat) (s : Str)
    (hbuf : ∀ x ∈ buf, x < 256) (hs : ∀ x ∈ s, x < 256) :
    ∀ x ∈ appendString buf s, x < 256 := by
  intro x hx
  simp only [appendString, appendU16, List.mem_append] at hx
  rcases hx with (hx | hx) | hx
  · exact hbuf x hx
  · exact be16_bytes _ x hx
  · exact hs x hx

lemma packEntries_bytes (es : List (Str × Str))
    (h : ∀ kv ∈ es, (∀ x ∈ kv.1, x < 256) ∧ ∀ x ∈ kv.2, x < 256) :
    ∀ x ∈ packEntries es, x < 256 := by
  induction es with
  | nil => intro x hx; simp at hx
  | cons kv es ih =>
    intro x hx
    rw [packEntries_cons] at hx
    rcases List.mem_append.mp hx with hx | hx
    · obtain ⟨h1, h2⟩ := h kv (by simp)
      exact appendString_bytes _ _ (appendString_bytes _ _ (by simp) h1) h2 x hx
    · exact ih (fun kv2 hkv2 => h kv2 (by simp [hkv2])) x hx

lemma packRecord_bytes (r : Record)
    (hp : ∀ x ∈ r.payload, x < 256)
    (hm : ∀ kv ∈ r.metadata, (∀ x ∈ kv.1, x < 256) ∧ ∀ x ∈ kv.2, x < 256) :
    ∀ x ∈ packRecord r, x < 256 := by
  intro x hx
  simp only [packRecord, appendU32, List.mem_append, List.nil_append] at hx
  rcases hx with ((hx | hx) | hx) | hx
  · exact be32_bytes _ x hx
  · exact packEntries_bytes r.metadata hm x hx
  · exact be32_bytes _ x hx
  · exact hp x hx

lemma packBatch_bytes (b : Batch) (h : byteWF b) : ∀ x ∈ packBatch b, x < 256 := by
  obtain ⟨hctx, hrec⟩ := h
  intro x hx
  simp only [packBatch, appendU32, List.mem_append, List.nil_append] at hx
  rcases hx with ((((hx | hx) | hx) | hx) | hx) | hx
  · exact be32_bytes _ x hx
  · exact be32_bytes _ x hx
  · exact be32_bytes _ x hx
  · exact be32_bytes _ x hx
  · exact packEntries_bytes b.context hctx x hx
  · rw [List.mem_flatten] at hx
    obtain ⟨l, hl, hxl⟩ := hx
    rw [List.mem_map] at hl
    obtain ⟨r, hr, rfl⟩ := hl
    exact packRecord_bytes r (hrec r hr).1 (hrec r hr).2 x hxl

/-- C10: `appendString` writes the 2-byte length field as the string's
length modulo 2^16 while appending all of the string's bytes (first
conjunct, the literal `appendString` code); consequently every string the
decoder can ever produce is shorter than 65536 bytes, so when a batch
contains a metadata or context key or value longer than 65535 bytes,
encoding succeeds (`packBatch` is total by construction) but no decode
result of the encoding can contain that pair: the round trip can only
hold under the unstated precondition that keys and values are at most
65535 bytes. -/
theorem c10_length_truncation (b : Batch) (hwf : byteWF b) (kv : Str × Str)
    (hmem : kv ∈ b.context ∨ ∃ r ∈ b.records, kv ∈ r.metadata)
    (hlong : 65535 < kv.1.length ∨ 65535 < kv.2.length) :
    (∀ (buf : List Nat) (s : Str),
      appendString buf s = buf ++ be16 (s.length % 65536) ++ s) ∧
    ∀ b2 : Batch, unpackBatch (packBatch b) = .ok b2 →
      kv ∉ b2.context ∧ ∀ r2 ∈ b2.records, kv ∉ r2.metadata := by
  refine ⟨fun buf s => by rw [appendString, appendU16], ?_⟩
  intro b2 hdec
  have hshort := unpack_ok_short (packBatch b) b2 (packBatch_bytes b hwf) hdec
  constructor
  · intro hmem2
    have h2 := hshort.1 kv hmem2
    rcases hlong with h | h
    · exact absurd h2.1 (by omega)
    · exact absurd h2.2 (by omega)
  · intro r2 hr2 hmem2
    have h2 := hshort.2 r2 hr2 kv hmem2
    rcases hlong with h | h
    · exact absurd h2.1 (by omega)
    · exact absurd h2.2 (by omega)

lemma byteWF_cex : byteWF cexBatch := by
  constructor
  · intro kv hkv
    rcases List.mem_singleton.mp hkv with rfl
    constructor
    · intro x hx
      unfold bigKey at hx
      rw [List.eq_of_mem_replicate hx]
      norm_num
    · intro x hx; simp at hx
  · intro r hr; simp [cexBatch] at hr

/-- Witness for C10: the 65536-byte key batch; its long pair appears in
no component of the decoded batch. -/
theorem c10_length_truncation_witness :
    (bigKey, ([] : List Nat)) ∉ cexDecoded.context ∧
      ∀ r2 ∈ cexDecoded.records, (bigKey, ([] : List Nat)) ∉ r2.metadata :=
  (c10_length_truncation cexBatch byteWF_cex (bigKey, ([] : List Nat))
    (Or.inl (List.mem_singleton.mpr rfl))
    (Or.inl (by rw [bigKey_length]; norm_num))).2 cexDecoded cex_eval

/-! ## Flow-control window (v4 `internal/flow`, src/unnamed/part_006)

`Window.value` is a Go `int`; additions wrap at 2^64 (two's complement). -/

def wrap64 (x : Int) : Int :=
  (x + 9223372036854775808) % 18446744073709551616 - 9223372036854775808

structure Window where
  value : Int
deriving DecidableEq

/-- `Window.Release(n)`: `w.value += n`, then broadcast. -/
def Window.release (w : Window) (n : Int) : Window := ⟨wrap64 (w.value + n)⟩

/-- The wait condition of `Window.Acquire`: the caller stays parked in
`cond.Wait()` while `value <= 0` and can proceed exactly when `value > 0`. -/
def canAcquire (w : Window) : Bool := decide (0 < w.value)

/-- Events relevant to a parked `Acquire`.  `flow.Window` exposes only
`Acquire` and `Release`; it holds no cancellation token and
`SourceServer.OpenStream` checks no context, so session-close and
transport-cancel events do not touch the window state at all. -/
inductive WEvent where
  | release : Int → WEvent
  | cancelSession : WEvent
  | cancelTransport : WEvent
deriving DecidableEq

def Window.step (w : Window) (e : WEvent) : Window :=
  match e with
  | .release n => w.release n
  | .cancelSession => w
  | .cancelTransport => w

/-! ## Legacy session (package `session`, src/unnamed/part_002) -/

/-- The per-session fields the claims touch: the `window` counter
(an `int32`) and the monotone `closed` flag. -/
structure LegacySession where
  window : Int
  closed : Bool
deriving DecidableEq

/-- `Session.UpdateWindow(newWindow)`: `atomic.StoreInt32` — an absolute
store, not an addition. -/
def LegacySession.updateWindow (s : LegacySession) (newWindow : Int) : LegacySession :=
  { s with window := newWindow }

/-- `Session.ConsumeWindow`: returns false when the window is ≤ 0,
otherwise decrements it by one. -/
def LegacySession.consumeWindow (s : LegacySession) : Bool × LegacySession :=
  if s.window ≤ 0 then (false, s) else (true, { s with window := s.window - 1 })

/-- `Session.Close`: compare-and-swap on the closed flag. -/
def LegacySession.close (s : LegacySession) : LegacySession :=
  if s.closed then s else { s with closed := true }

/-- `NewSession`: default window 20, active. -/
def freshSession : LegacySession := ⟨20, false⟩

inductive SessErr where
  | notFound
  | closedSess
deriving DecidableEq

instance {ε α : Type} [DecidableEq ε] [DecidableEq α] :
    DecidableEq (Except ε α) := fun x y =>
  match x, y with
  | .ok a, .ok b =>
    if h : a = b then isTrue (by rw [h])
    else isFalse (by intro hh; cases hh; exact h rfl)
  | .error a, .error b =>
    if h : a = b then isTrue (by rw [h])
    else isFalse (by intro hh; cases hh; exact h rfl)
  | .ok _, .error _ => isFalse (by intro hh; cases hh)
  | .error _, .ok _ => isFalse (by intro hh; cases hh)

/-- The manager's backing map, as an association list keyed by session id. -/
def lookupSess (m : List (String × LegacySession)) (id : String) :
    Option LegacySession :=
  (m.find? (fun p => p.1 == id)).map Prod.snd

def removeSess (m : List (String × LegacySession)) (id : String) :
    List (String × LegacySession) :=
  m.filter (fun p => p.1 != id)

/-- `Manager.Get` (src/unnamed/part_002 lines 132-143): absent id is
`ErrSessionNotFound`; a present but closed session is `ErrSessionClosed`. -/
def managerGet (m : List (String × LegacySession)) (id : String) :
    Except SessErr LegacySession :=
  match lookupSess m id with
  | none => .error .notFound
  | some s => if s.closed then .error .closedSess else .ok s

/-- `Manager.Close` (src/unnamed/part_002 lines 145-153):
`LoadAndDelete`; a missing entry returns `ErrSessionNotFound`, otherwise
the entry is removed and the session's `Close` (which always returns nil)
is invoked. -/
def managerClose (m : List (String × LegacySession)) (id : String) :
    List (String × LegacySession) × Except SessErr Unit :=
  match lookupSess m id with
  | none => (m, .error .notFound)
  | some _ => (removeSess m id, .ok ())

/-! ## Legacy source server (package `source`, src/unnamed/part_001) -/

/-- `source.Server.Ack`: `sessions.Get`, then
`sess.UpdateWindow(req.NewWindow)` — an absolute store of the requested
window.  A lookup failure leaves the map unchanged (the handler replies
`Success: false`). -/
def legacyAck (m : List (String × LegacySession)) (id : String)
    (newWindow : Int) : List (String × LegacySession) :=
  match managerGet m id with
  | .error _ => m
  | .ok _ => m.map (fun p => if p.1 == id then (p.1, p.2.updateWindow newWindow) else p)

/-- The state of `source.Server` that `CloseSession` touches: the
`instances` map (which session ids have a bound SPI), the session
manager's map, and a log of `SPI.Close` invocations. -/
structure SourceServerState where
  instances : List String
  sessions : List (String × LegacySession)
  spiCloseCalls : List String
deriving DecidableEq

/-- `source.Server.CloseSession` (src/unnamed/part_001 lines 164-183):
`instances.LoadAndDelete` — when an SPI instance is present it is removed
and its `Close` hook runs (errors only logged); then `sessions.Close`,
whose error is also only logged; the gRPC call always succeeds
(returns `Empty{}, nil`), reported here as the `Bool` `true`. -/
def closeSession (st : SourceServerState) (id : String) :
    SourceServerState × Bool :=
  let st1 := if id ∈ st.instances then
      { st with instances := st.instances.filter (fun x => x != id),
                spiCloseCalls := id :: st.spiCloseCalls }
    else st
  ({ st1 with sessions := (managerClose st1.sessions id).1 }, true)

/-! ## v4 runtime source handler (src/internal/runtime/sink_server.go) -/

/-- `SourceServer.Ack`: `sessions.Get`, and when found
`sess.window.Release(int(req.NewWindow))` — an additive release. -/
def sourceAck (m : List (String × Window)) (id : String) (newWindow : Int) :
    List (String × Window) :=
  if ((m.find? (fun p => p.1 == id)).isSome) then
    m.map (fun p => if p.1 == id then (p.1, p.2.release newWindow) else p)
  else m

/-- What the user's `ReadBatch` returns on one iteration: a batch, an
error whose message is "EOF" (`io.EOF`), or any other error. -/
inductive ReadResult where
  | batch : Batch → ReadResult
  | eofErr : ReadResult
  | err : String → ReadResult
deriving DecidableEq

/-- Outcome of one iteration of the legacy `OpenStream` loop: the loop
either returns (with `none` for a clean `return nil`) or continues with
the new window value, the bytes sent (if any), and whether `ReadBatch`
was invoked this iteration. -/
inductive LoopStep where
  | exit : Option String → LoopStep
  | next : Int → Option (List Nat) → Bool → LoopStep
deriving DecidableEq

/-- One iteration of `source.Server.OpenStream` (src/unnamed/part_001
lines 99-142): check both contexts (done → `return nil`); `ConsumeWindow`
(false → `continue` without reading); `ReadBatch`; an error with message
"EOF" → `return nil`; any other error → log and `continue`; an empty
batch → `continue`; otherwise pack (`PackBatch` never fails) and send
(send failure → `return err`).  Note the credit consumed before the read
is never returned on the `continue` paths. -/
def legacyStep (sessDone streamDone : Bool) (w : Int) (read : ReadResult)
    (sendOk : Bool) : LoopStep :=
  if sessDone then .exit none
  else if streamDone then .exit none
  else if w ≤ 0 then .next w none false
  else
    match read with
    | .eofErr => .exit none
    | .err _ => .next (w - 1) none true
    | .batch b =>
      if b.records.length = 0 then .next (w - 1) none true
      else if sendOk then .next (w - 1) (some (packBatch b)) true
      else .exit (some "send failed")

/-- Outcome of one iteration of the v4 `SourceServer.OpenStream` loop. -/
inductive RLoopStep where
  | blocked
  | exit : Option String → RLoopStep
  | next : Int → Batch → RLoopStep
deriving DecidableEq

/-- One iteration of `SourceServer.OpenStream`
(src/internal/runtime/sink_server.go lines 336-367): `window.Acquire()`
(parked while credit ≤ 0; no cancellation check anywhere in the loop);
`ReadBatch`; ANY error — `io.EOF` included — is returned, ending the
stream; otherwise the batch is packed (a codec error is returned) and
sent (a send error is returned).  Empty batches are not special-cased. -/
def runtimeStep (w : Int) (read : ReadResult) (packOk sendOk : Bool) : RLoopStep :=
  if w ≤ 0 then .blocked
  else
    match read with
    | .eofErr => .exit (some "EOF")
    | .err e => .exit (some e)
    | .batch b =>
      if packOk then (if sendOk then .next (w - 1) b else .exit (some "send failed"))
      else .exit (some "pack failed")

/-! ## Legacy sink server (package `sink`, src/sdk/sdk.go lines 136-171) -/

structure SinkReq where
  sid : String
  packed : List Nat
deriving DecidableEq

/-- The legacy `planxv1.AckResponse` fields used by `sink.Server.Write`. -/
structure Ack where
  success : Bool
  error : String
deriving DecidableEq

def isOk {α : Type} : DecodeResult α → Bool
  | .ok _ => true
  | _ => false

/-- `sink.Server.Write`: for each received request — unknown session:
`continue` (no ack); `UnpackBatch` failure: log and `continue` (no ack);
user `Write` failure: send `{Success: false, Error: msg}` and `continue`;
success: send `{Success: true}`.  `writeErr` gives the user callback's
error (if any) per session and batch. -/
def sinkWriteLoop (known : String → Bool)
    (writeErr : String → Batch → Option String) : List SinkReq → List Ack
  | [] => []
  | r :: rest =>
    if known r.sid then
      match unpackBatch r.packed with
      | .ok b =>
        match writeErr r.sid b with
        | some msg => ⟨false, msg⟩ :: sinkWriteLoop known writeErr rest
        | none => ⟨true, ""⟩ :: sinkWriteLoop known writeErr rest
      | _ => sinkWriteLoop known writeErr rest
    else sinkWriteLoop known writeErr rest

/-- The single acknowledgment corresponding to one decodable request. -/
def ackOf (writeErr : String → Batch → Option String) (r : SinkReq) : Ack :=
  match unpackBatch r.packed with
  | .ok b =>
    match writeErr r.sid b with
    | some msg => ⟨false, msg⟩
    | none => ⟨true, ""⟩
  | _ => ⟨false, "undecodable"⟩

/-! ## Claim C2 -/

lemma wrap64_add_left (x y : Int) : wrap64 (wrap64 x + y) = wrap64 (x + y) := by
  unfold wrap64
  omega

lemma release_release_comm (w : Window) (a b : Int) :
    (w.release a).release b = (w.release b).release a := by
  unfold Window.release
  simp only [Window.mk.injEq]
  rw [wrap64_add_left, wrap64_add_left]
  congr 1
  ring

lemma find_isSome_ackMap (m : List (String × Window)) (id : String) (c : Int) :
    ((m.map (fun p => if p.1 == id then (p.1, p.2.release c) else p)).find?
      (fun p => p.1 == id)).isSome = (m.find? (fun p => p.1 == id)).isSome := by
  rw [List.find?_map]
  have hfun : ((fun p : String × Window => p.1 == id) ∘
      (fun p : String × Window => if p.1 == id then (p.1, p.2.release c) else p)) =
      (fun p : String × Window => p.1 == id) := by
    funext p
    by_cases hp : p.1 = id
    · simp [Function.comp, hp]
    · simp [Function.comp, hp]
  rw [hfun]
  cases List.find? (fun p => p.1 == id) m <;> rfl

lemma sourceAck_comm (m : List (String × Window)) (id : String) (a b : Int) :
    sourceAck (sourceAck m id a) id b = sourceAck (sourceAck m id b) id a := by
  by_cases h : (m.find? (fun p => p.1 == id)).isSome = true
  · simp only [sourceAck, find_isSome_ackMap, h, if_true, List.map_map]
    apply List.map_congr_left
    intro p _
    by_cases hp : p.1 = id
    · simp [Function.comp, hp, release_release_comm]
    · simp [Function.comp, hp]
  · have h2 : (m.find? (fun p => p.1 == id)).isSome = false := by
      cases hh : (m.find? (fun p => p.1 == id)).isSome
      · rfl
      · exact absurd hh h
    simp [sourceAck, find_isSome_ackMap, h2]

/-- C2 (amended): the v4 runtime source handler's `Ack`
(`SourceServer.Ack` via `flow.Window.Release`) is additive — it adds the
delta to the existing credit (exactly, whenever the sum does not overflow
the 64-bit counter, and modulo 2^64 in general) — and therefore commutes:
two acks against the same session yield the same state in either order.
The legacy `source.Server.Ack`, by contrast, overwrites the counter
absolutely (see the counterexample). -/
theorem c2_ack_additive :
    (∀ (w : Window) (n : Int), (w.release n).value = wrap64 (w.value + n)) ∧
    (∀ (w : Window) (n : Int), -9223372036854775808 ≤ w.value + n →
      w.value + n < 9223372036854775808 → (w.release n).value = w.value + n) ∧
    (∀ (w : Window) (a b : Int), (w.release a).release b = (w.release b).release a) ∧
    (∀ (m : List (String × Window)) (id : String) (a b : Int),
      sourceAck (sourceAck m id a) id b = sourceAck (sourceAck m id b) id a) := by
  refine ⟨fun w n => rfl, ?_, release_release_comm, sourceAck_comm⟩
  intro w n h1 h2
  unfold Window.release wrap64
  simp only
  omega

/-- Witness for C2, at a concrete window and deltas. -/
theorem c2_ack_additive_witness :
    (Window.release ⟨20⟩ 5).value = 20 + 5 ∧
    (Window.release (Window.release ⟨20⟩ 1) 2 = Window.release (Window.release ⟨20⟩ 2) 1) :=
  ⟨c2_ack_additive.2.1 ⟨20⟩ 5 (by decide) (by decide),
   c2_ack_additive.2.2.1 ⟨20⟩ 1 2⟩

/-- Counterexample to C2 as frozen: the legacy source handler's `Ack`
(cited in the claim's sources) stores the delta as the absolute window,
so the result is not `old + delta` and two acks do not commute: deltas
1 then 2 leave window 2, deltas 2 then 1 leave window 1. -/
theorem c2_counterexample :
    lookupSess (legacyAck (legacyAck [("s", freshSession)] "s" 1) "s" 2) "s" =
      some ⟨2, false⟩ ∧
    lookupSess (legacyAck (legacyAck [("s", freshSession)] "s" 2) "s" 1) "s" =
      some ⟨1, false⟩ ∧
    ((⟨2, false⟩ : LegacySession) ≠ ⟨1, false⟩) ∧
    lookupSess (legacyAck [("s", freshSession)] "s" 1) "s" ≠
      some ⟨freshSession.window + 1, false⟩ := by decide

/-! ## Claim C4 -/

/-- C4 (amended): in the legacy `source.Server.OpenStream` loop an
end-of-input error (`io.EOF`) ends the loop cleanly (`return nil`) and
any other read error is logged and the loop continues to the next
iteration; in the v4 runtime `SourceServer.OpenStream` loop, however,
EVERY read error — end-of-input included — is returned, ending the
stream with an error. -/
theorem c4_read_error_policy :
    (∀ (w : Int) (e : String) (sendOk : Bool), 0 < w →
      legacyStep false false w (.err e) sendOk = .next (w - 1) none true) ∧
    (∀ (w : Int) (sendOk : Bool), 0 < w →
      legacyStep false false w .eofErr sendOk = .exit none) ∧
    (∀ (w : Int) (e : String) (packOk sendOk : Bool), 0 < w →
      runtimeStep w (.err e) packOk sendOk = .exit (some e)) ∧
    (∀ (w : Int) (packOk sendOk : Bool), 0 < w →
      runtimeStep w .eofErr packOk sendOk = .exit (some "EOF")) := by
  refine ⟨?_, ?_, ?_, ?_⟩ <;> intro w
  · intro e sendOk hw
    have h : ¬ (w ≤ 0) := by omega
    simp [legacyStep, h]
  · intro sendOk hw
    have h : ¬ (w ≤ 0) := by omega
    simp [legacyStep, h]
  · intro e packOk sendOk hw
    have h : ¬ (w ≤ 0) := by omega
    simp [runtimeStep, h]
  · intro packOk sendOk hw
    have h : ¬ (w ≤ 0) := by omega
    simp [runtimeStep, h]

/-- Witness for C4 at window 1. -/
theorem c4_read_error_policy_witness :
    legacyStep false false 1 (.err "boom") true = .next (1 - 1) none true ∧
    legacyStep false false 1 .eofErr true = .exit none ∧
    runtimeStep 1 (.err "boom") true true = .exit (some "boom") ∧
    runtimeStep 1 .eofErr true true = .exit (some "EOF") :=
  ⟨c4_read_error_policy.1 1 "boom" true (by decide),
   c4_read_error_policy.2.1 1 true (by decide),
   c4_read_error_policy.2.2.1 1 "boom" true true (by decide),
   c4_read_error_policy.2.2.2 1 true true (by decide)⟩

/-- Counterexample to C4 as frozen: in the v4 runtime source handler
(cited in the claim's sources), a single failing read terminates the
stream with that error — it is not logged-and-skipped — and end-of-input
is returned as an error rather than ending the loop cleanly. -/
theorem c4_counterexample :
    runtimeStep 5 (.err "read failed") true true = .exit (some "read failed") ∧
    RLoopStep.exit (some "read failed") ≠ .exit none ∧
    runtimeStep 5 .eofErr true true = .exit (some "EOF") ∧
    RLoopStep.exit (some "EOF") ≠ .exit none := by decide

/-! ## Claim C5 -/

/-- C5 (amended): an empty read makes the loop continue without sending,
but the flow-control credit consumed before that read is NOT restored:
the legacy loop re-enters `ConsumeWindow` on the next iteration, so the
window after an empty read is one less than before it; and the v4
runtime loop does not special-case empty batches at all — it packs and
sends them, likewise consuming one credit. -/
theorem c5_empty_read_credit :
    (∀ (w : Int) (ctx : List (Str × Str)) (sendOk : Bool), 0 < w →
      legacyStep false false w (.batch ⟨[], ctx⟩) sendOk = .next (w - 1) none true) ∧
    (∀ (w : Int) (b : Batch), 0 < w →
      runtimeStep w (.batch b) true true = .next (w - 1) b) := by
  constructor
  · intro w ctx sendOk hw
    have h : ¬ (w ≤ 0) := by omega
    simp [legacyStep, h]
  · intro w b hw
    have h : ¬ (w ≤ 0) := by omega
    simp [runtimeStep, h]

/-- Witness for C5 at window 2. -/
theorem c5_empty_read_credit_witness :
    legacyStep false false 2 (.batch ⟨[], []⟩) true = .next (2 - 1) none true ∧
    runtimeStep 2 (.batch ⟨[], []⟩) true true = .next (2 - 1) ⟨[], []⟩ :=
  ⟨c5_empty_read_credit.1 2 [] true (by decide),
   c5_empty_read_credit.2 2 ⟨[], []⟩ (by decide)⟩

/-- Counterexample to C5 as frozen: with window 2 an empty read leaves
window 1, not 2 — the credit state after an empty read does not equal
the credit state before it. -/
theorem c5_counterexample :
    legacyStep false false 2 (.batch ⟨[], []⟩) true = .next 1 none true ∧
    ((1 : Int) ≠ 2) ∧
    runtimeStep 2 (.batch ⟨[], []⟩) true true = .next 1 ⟨[], []⟩ := by decide

/-! ## Claim C6 -/

lemma sinkWriteLoop_eq_map (known : String → Bool)
    (writeErr : String → Batch → Option String) : ∀ reqs : List SinkReq,
    (∀ r ∈ reqs, known r.sid = true ∧ isOk (unpackBatch r.packed) = true) →
    sinkWriteLoop known writeErr reqs = reqs.map (ackOf writeErr) := by
  intro reqs
  induction reqs with
  | nil => intro _; rfl
  | cons r rest ih =>
    intro h
    obtain ⟨hk, hdec⟩ := h r (by simp)
    cases hu : unpackBatch r.packed with
    | formatError e => rw [hu] at hdec; simp [isOk] at hdec
    | crash => rw [hu] at hdec; simp [isOk] at hdec
    | ok b =>
      have hrest := ih (fun r2 hr2 => h r2 (List.mem_cons_of_mem _ hr2))
      cases hw : writeErr r.sid b with
      | some msg => simp [sinkWriteLoop, hk, hu, hw, ackOf, hrest]
      | none => simp [sinkWriteLoop, hk, hu, hw, ackOf, hrest]

/-- C6 (amended): in the legacy sink handler's `Write` stream, every
inbound message whose session id is known and whose frame decodes gets
exactly one acknowledgment, in FIFO correspondence (the ack list is the
map of `ackOf` over the request list, so order and length match); a user
write failure yields the negative acknowledgment `{success := false,
error := msg}` and processing continues with the remaining messages
(again by the map equation).  Messages with unknown session ids or
undecodable frames are skipped with no acknowledgment at all (see the
counterexample), so the per-batch-ack guarantee holds only under this
precondition. -/
theorem c6_sink_ack (known : String → Bool)
    (writeErr : String → Batch → Option String) (reqs : List SinkReq)
    (h : ∀ r ∈ reqs, known r.sid = true ∧ isOk (unpackBatch r.packed) = true) :
    sinkWriteLoop known writeErr reqs = reqs.map (ackOf writeErr) ∧
    (sinkWriteLoop known writeErr reqs).length = reqs.length ∧
    ∀ (r : SinkReq) (b : Batch) (msg : String), unpackBatch r.packed = .ok b →
      writeErr r.sid b = some msg → ackOf writeErr r = ⟨false, msg⟩ := by
  have hmap := sinkWriteLoop_eq_map known writeErr reqs h
  refine ⟨hmap, by rw [hmap, List.length_map], ?_⟩
  intro r b msg hu hw
  simp [ackOf, hu, hw]

def wKnown : String → Bool := fun _ => true

def wWriteErr : String → Batch → Option String :=
  fun _ b => if b.records.length = 0 then some "disk full" else none

def wReqs : List SinkReq := [⟨"s1", packBatch ⟨[], []⟩⟩, ⟨"s1", packBatch wBatch⟩]

/-- Witness for C6: two inbound batches, the first of which fails the
user write: the handler emits the negative ack and still processes and
positively acknowledges the second. -/
theorem c6_sink_ack_witness :
    sinkWriteLoop wKnown wWriteErr wReqs = wReqs.map (ackOf wWriteErr) ∧
    wReqs.map (ackOf wWriteErr) = [⟨false, "disk full"⟩, ⟨true, ""⟩] :=
  ⟨(c6_sink_ack wKnown wWriteErr wReqs (by decide)).1, by decide⟩

/-- Counterexample to C6 as frozen: an inbound message carrying an
undecodable frame (or an unknown session id) produces NO acknowledgment
at all — the loop logs and continues — so "exactly one ack per inbound
batch" fails without the decodability/known-session precondition. -/
theorem c6_counterexample :
    sinkWriteLoop (fun _ => true) (fun _ _ => none)
      [⟨"s1", ([] : List Nat)⟩] = ([] : List Ack) ∧
    sinkWriteLoop (fun _ => false) (fun _ _ => none)
      [⟨"s1", packBatch ⟨[], []⟩⟩] = ([] : List Ack) ∧
    ([] : List Ack).length ≠ 1 := by decide

/-! ## Claim C7 -/

/-- C7 (amended): closing the same session id twice through the legacy
source handler's `CloseSession` succeeds both times (the call always
returns `Empty{}, nil`; the second close's registry error is only
logged) and the bound SPI instance's `Close` teardown hook runs exactly
once, because the first call removes the instance.  At the registry
level, however, the second `Manager.Close` is NOT a silent no-op: the
first close removed the map entry, so the second returns
`ErrSessionNotFound` (see the counterexample). -/
theorem c7_idempotent_close (st : SourceServerState) (id : String)
    (h1 : id ∈ st.instances) (h0 : st.spiCloseCalls.count id = 0) :
    (closeSession st id).2 = true ∧
    (closeSession (closeSession st id).1 id).2 = true ∧
    (closeSession (closeSession st id).1 id).1.spiCloseCalls.count id = 1 ∧
    id ∉ (closeSession st id).1.instances := by
  have hni : id ∉ st.instances.filter (fun x => x != id) := by
    intro hmem
    rw [List.mem_filter] at hmem
    simp at hmem
  refine ⟨rfl, rfl, ?_, ?_⟩
  · simp [closeSession, h1, hni, List.count_cons, h0]
  · simp only [closeSession, if_pos h1]
    exact hni

def st0 : SourceServerState := ⟨["s"], [("s", freshSession)], []⟩

/-- Witness for C7 at a concrete one-session server state. -/
theorem c7_idempotent_close_witness :
    (closeSession st0 "s").2 = true ∧
    (closeSession (closeSession st0 "s").1 "s").2 = true ∧
    (closeSession (closeSession st0 "s").1 "s").1.spiCloseCalls.count "s" = 1 ∧
    "s" ∉ (closeSession st0 "s").1.instances :=
  c7_idempotent_close st0 "s" (by decide) (by decide)

/-- Counterexample to C7 as frozen: at the registry, closing the same id
twice does not succeed twice — the second `Manager.Close` returns the
not-found error, not a silent no-op. -/
theorem c7_counterexample :
    (managerClose (managerClose [("s", freshSession)] "s").1 "s").2 =
      .error .notFound ∧
    (Except.error SessErr.notFound : Except SessErr Unit) ≠ .ok () := by decide

/-! ## Claim C8 -/

lemma lookupSess_remove (m : List (String × LegacySession)) (id : String) :
    lookupSess (removeSess m id) id = none := by
  have hfind : (removeSess m id).find? (fun p => p.1 == id) = none := by
    rw [List.find?_eq_none]
    intro x hx
    rw [removeSess, List.mem_filter] at hx
    simpa using hx.2
  rw [lookupSess, hfind]
  rfl

/-- C8 (amended): `Manager.Get` distinguishes the two errors — a
registered session whose closed flag is set yields `ErrSessionClosed`,
an absent id yields `ErrSessionNotFound` — but `Manager.Close` REMOVES
the entry, so a lookup after a completed registry close yields
`ErrSessionNotFound`, not `ErrSessionClosed`; the closed-session error
is observable only while a closed session is still registered. -/
theorem c8_closed_lookup :
    (∀ (m : List (String × LegacySession)) (id : String) (s : LegacySession),
      lookupSess m id = some s → s.closed = true →
      managerGet m id = .error .closedSess) ∧
    (∀ (m : List (String × LegacySession)) (id : String),
      lookupSess m id = none → managerGet m id = .error .notFound) ∧
    (∀ (m : List (String × LegacySession)) (id : String),
      managerGet (managerClose m id).1 id = .error .notFound) ∧
    (SessErr.notFound ≠ SessErr.closedSess) := by
  refine ⟨?_, ?_, ?_, by decide⟩
  · intro m id s hl hc
    simp [managerGet, hl, hc]
  · intro m id hl
    simp [managerGet, hl]
  · intro m id
    cases hl : lookupSess m id with
    | none => simp [managerClose, hl, managerGet]
    | some s => simp [managerClose, hl, managerGet, lookupSess_remove]

/-- Witness for C8: a still-registered closed session yields the
closed-session error; an unknown id and a closed-and-removed id yield
the not-found error. -/
theorem c8_closed_lookup_witness :
    managerGet [("s", (⟨20, true⟩ : LegacySession))] "s" = .error .closedSess ∧
    managerGet ([] : List (String × LegacySession)) "s" = .error .notFound ∧
    managerGet (managerClose [("s", freshSession)] "s").1 "s" = .error .notFound :=
  ⟨c8_closed_lookup.1 _ "s" ⟨20, true⟩ (by decide) rfl,
   c8_closed_lookup.2.1 _ "s" (by decide),
   c8_closed_lookup.2.2.1 _ "s"⟩

/-- Counterexample to C8 as frozen: create a session, close it through
the registry, then look it up — the result is the not-found error, not
the closed-session error the claim requires. -/
theorem c8_counterexample :
    managerGet (managerClose [("s", freshSession)] "s").1 "s" =
      .error .notFound ∧
    (Except.error SessErr.notFound : Except SessErr LegacySession) ≠
      .error .closedSess := by decide

/-! ## Claim C9 -/

/-- C9 (code divergence): in `flow.Window` the only thing that can change
whether a parked `Acquire` may proceed is `Release`; the window state is
untouched by session-close and transport-cancel events (the type holds no
cancellation token, `Acquire` takes no context, and
`SourceServer.OpenStream` never checks one), so with zero credit a parked
`Acquire` remains blocked across any cancellation — cancellation does
not unblock it as the claim requires. -/
theorem c9_acquire_not_cancellable :
    canAcquire ⟨0⟩ = false ∧
    (∀ w : Window, Window.step w .cancelSession = w ∧
      Window.step w .cancelTransport = w) ∧
    canAcquire (List.foldl Window.step ⟨0⟩
      [WEvent.cancelSession, WEvent.cancelTransport]) = false ∧
    (∀ (w : Window) (n : Int), canAcquire (Window.step w (.release n)) =
      decide (0 < wrap64 (w.value + n))) :=
  ⟨rfl, fun _ => ⟨rfl, rfl⟩, rfl, fun _ _ => rfl⟩

end PlanxSDK
